import Mathlib

/-!
Verification of the Heart Disease Classification service (`api/app.py`,
`db_utils.py`, `classification_pipeline.py`).

The inference pipeline is embedded shallowly:
* JSON numbers are modelled as `ℚ`; a pandas cell is `Option ℚ` where
  `none` stands for the `NaN` that `pd.DataFrame` inserts for a key absent
  from one of the input dicts.
* `pd.DataFrame(list_of_dicts)` is `mkTable`: columns are the union of the
  keys in order of first appearance, each row is the per-dict lookup.
  Since the source wraps the coercion in `try/except`, `predict` receives
  the coercion as a fallible parameter `toDF`; the concrete instantiation
  is `pdDataFrame` (which always succeeds on lists of dicts).
* the scoring capability (the unpickled sklearn pipeline) is a `Model`
  record with a mandatory `classify` (= `model.predict`) and an optional
  `classifyProba` (= `model.predict_proba` when `hasattr` holds); both may
  raise, modelled with `Except String`.
* FastAPI/pydantic validation of `PatientFeatures` is the per-field
  presence + inclusive `[ge, le]` range check of the declared `Field`s;
  extra keys are ignored (pydantic v1 default `Extra.ignore`).
* `HTTPException`s and uncaught exceptions are the constructors of
  `ApiError`.
-/

set_option autoImplicit false

namespace HeartDisease

/-- Feature order used for training, from `classification_pipeline.FEATURE_NAMES`. -/
def FEATURE_NAMES : List String :=
  ["age", "sex", "cp", "trestbps", "chol", "fbs",
   "restecg", "thalach", "exang", "oldpeak", "slope", "ca", "thal"]

/-- Path constant `MODEL_PATH` from `api/app.py`. -/
def MODEL_PATH : String := "/app/api/models/global_best_model_optuna.pkl"

/-- A pandas cell: `none` models the `NaN` filled in for a missing key. -/
abbrev Cell := Option Rat

/-- One element of `request.instances`: a JSON object (dict) as an
association list from key to numeric value. -/
abbrev Instance := List (String × Rat)

/-- A pandas `DataFrame`: named columns plus rows aligned with the columns. -/
structure Table where
  cols : List String
  rows : List (List Cell)
deriving DecidableEq, Repr

/-- Column set of `pd.DataFrame(instances)`: union of the dict keys in
order of first appearance. -/
def unionKeys (instances : List Instance) : List String :=
  instances.foldl
    (fun acc inst => inst.foldl (fun a kv => if kv.1 ∈ a then a else a ++ [kv.1]) acc)
    []

/-- The `pd.DataFrame(instances)` table: union-of-keys columns, and for
each dict the looked-up value per column (`NaN`/`none` when absent). -/
def mkTable (instances : List Instance) : Table :=
  let cols := unionKeys instances
  { cols := cols
    rows := instances.map fun inst => cols.map fun c => inst.lookup c }

/-- The DataFrame coercion `pd.DataFrame(request.instances)` in `predict`:
on a list of dicts it always succeeds, producing `mkTable`. -/
def pdDataFrame (instances : List Instance) : Option Table :=
  some (mkTable instances)

/-- Cell of a row at a named column (column selection by name). -/
def Table.cellAt (t : Table) (row : List Cell) (c : String) : Cell :=
  ((t.cols.zip row).lookup c).getD none

/-- Column projection `X[cs]`: keep exactly the columns `cs`, in the order
of `cs`. -/
def Table.project (t : Table) (cs : List String) : Table :=
  { cols := cs
    rows := t.rows.map fun r => cs.map fun c => t.cellAt r c }

/-- The scoring capability: the pre-trained model loaded at startup.
`classify` is `model.predict`; `classifyProba` is `model.predict_proba`
when the attribute exists (`none` = no `predict_proba`).  Either call may
raise, hence `Except String`. -/
structure Model where
  classify : Table → Except String (List Int)
  classifyProba : Option (Table → Except String (List (Rat × Rat)))

/-- Response item of both endpoints (`PredictionResult` in `app.py`). -/
structure PredictionResult where
  prediction : Int
  probability : List Rat
  diagnosis : String
deriving DecidableEq, Repr

/-- Batch response (`PredictResponse` in `app.py`). -/
structure PredictResponse where
  predictions : List PredictionResult
  count : Nat
deriving DecidableEq, Repr

/-- Pydantic validation failure on the strict single-record path, naming
the offending field. -/
inductive ValidationError where
  | missing (field : String)
  | outOfRange (field : String)
deriving DecidableEq, Repr

/-- The failure modes of the two endpoints: the `HTTPException`s raised in
`app.py`, plus `crash` for an exception escaping the handler (the
`IndexError` possible in a result-building loop outside of a `try`). -/
inductive ApiError where
  | emptyBatch
  | malformedInput
  | missingColumns (missing : List String)
  | validationError (e : ValidationError)
  | predictionFailed (cause : String)
  | crash
deriving DecidableEq, Repr

/-- HTTP status carried by each error in the source. -/
def ApiError.status : ApiError → Nat
  | .emptyBatch => 400
  | .malformedInput => 400
  | .missingColumns _ => 400
  | .validationError _ => 422
  | .predictionFailed _ => 500
  | .crash => 500

/-- Row result construction shared by both endpoints: the diagnosis is
computed from the integer label alone. -/
def mkResult (pred : Int) (pr : Rat × Rat) : PredictionResult :=
  { prediction := pred
    probability := [pr.1, pr.2]
    diagnosis := if pred = 1 then "Heart Disease Detected" else "No Heart Disease" }

/-- Python `sorted` on a list of strings: ascending lexicographic order on
code points, realized as an insertion sort. -/
def sortStrings (l : List String) : List String :=
  l.insertionSort (· ≤ ·)

/-- The probability source of the batch endpoint: `model.predict_proba(X)`
when the attribute exists, else the synthesized hard `[1 - p, p]` rows. -/
def probaPairs (model : Model) (X : Table) (preds : List Int) :
    Except String (List (Rat × Rat)) :=
  match model.classifyProba with
  | some f => f X
  | none => .ok (preds.map fun p : Int => ((1 : Rat) - (p : Rat), (p : Rat)))

/-- The result-building loop `for i in range(len(preds))` of `predict`,
reading `probas[i]`: one result per returned label; `none` models the
uncaught `IndexError` raised when `probas` is shorter than `preds`
(the loop sits outside the `try` block). -/
def buildResults : List Int → List (Rat × Rat) → Option (List PredictionResult)
  | [], _ => some []
  | p :: ps, pr :: prs => (buildResults ps prs).map fun rs => mkResult p pr :: rs
  | _ :: _, [] => none

/-- Lines 212-244 of `app.py`: score the normalized table, fall back on
hard probabilities, build one result per returned label, and wrap with
`count = len(results)`. -/
def runInference (model : Model) (X : Table) : Except ApiError PredictResponse :=
  match model.classify X with
  | .error e => .error (.predictionFailed e)
  | .ok preds =>
    match probaPairs model X preds with
    | .error e => .error (.predictionFailed e)
    | .ok probas =>
      match buildResults preds probas with
      | none => .error .crash
      | some results => .ok { predictions := results, count := results.length }

/-- The `POST /predict` handler (`predict` in `app.py`): empty check, then
DataFrame coercion (`toDF`, instantiated with `pdDataFrame`), then the
missing-columns check with sorted names, then projection onto
`FEATURE_NAMES` and inference. -/
def predict (model : Model) (toDF : List Instance → Option Table)
    (instances : List Instance) : Except ApiError PredictResponse :=
  if instances.isEmpty then
    .error .emptyBatch
  else
    match toDF instances with
    | none => .error .malformedInput
    | some X =>
      let missing := FEATURE_NAMES.filter fun c => decide (¬ c ∈ X.cols)
      if missing.isEmpty then
        runInference model (X.project FEATURE_NAMES)
      else
        .error (.missingColumns (sortStrings missing))

/-- One declared pydantic `Field` of `PatientFeatures`: name and inclusive
`ge`/`le` bounds. -/
structure FieldSpec where
  name : String
  lo : Rat
  hi : Rat
deriving DecidableEq, Repr

/-- The thirteen `Field` declarations of `PatientFeatures`, in declaration
order, with their `ge`/`le` bounds. -/
def PatientFeaturesFields : List FieldSpec :=
  [⟨"age", 1, 120⟩, ⟨"sex", 0, 1⟩, ⟨"cp", 0, 3⟩, ⟨"trestbps", 50, 250⟩,
   ⟨"chol", 100, 600⟩, ⟨"fbs", 0, 1⟩, ⟨"restecg", 0, 2⟩, ⟨"thalach", 50, 250⟩,
   ⟨"exang", 0, 1⟩, ⟨"oldpeak", 0, 10⟩, ⟨"slope", 0, 2⟩, ⟨"ca", 0, 4⟩,
   ⟨"thal", 0, 3⟩]

/-- Pydantic check of one declared field against the request body: the
field must be present and within its inclusive bounds. -/
def checkField (body : Instance) (fs : FieldSpec) :
    Except ValidationError (String × Rat) :=
  match body.lookup fs.name with
  | none => .error (.missing fs.name)
  | some v =>
    if fs.lo ≤ v ∧ v ≤ fs.hi then .ok (fs.name, v)
    else .error (.outOfRange fs.name)

/-- Pydantic parsing of the `POST /predict/single` body into
`PatientFeatures` followed by `patient.dict()`: each declared field is
required and range-checked; extra keys are ignored; the result keeps the
declaration order. -/
def parsePatient (body : Instance) : Except ValidationError Instance :=
  PatientFeaturesFields.mapM (checkField body)

/-- Lines 253-255 of `app.py`: `pd.DataFrame([features])` followed by
`X = X[FEATURE_NAMES]`. -/
def singleTable (features : Instance) : Table :=
  (mkTable [features]).project FEATURE_NAMES

/-- The body of the `try` in `predict_single`: `model.predict(X)[0]` (an
empty result raises inside the `try`, surfacing as a 500), then
`predict_proba(X)[0]` when available, else the `[1 - pred, pred]`
fallback. -/
def singleInfer (model : Model) (X : Table) : Except ApiError PredictionResult :=
  match model.classify X with
  | .error e => .error (.predictionFailed e)
  | .ok preds =>
    match preds[0]? with
    | none => .error (.predictionFailed "index 0 is out of bounds")
    | some pred =>
      match model.classifyProba with
      | some f =>
        match f X with
        | .error e => .error (.predictionFailed e)
        | .ok probas =>
          match probas[0]? with
          | none => .error (.predictionFailed "index 0 is out of bounds")
          | some pr => .ok (mkResult pred pr)
      | none => .ok (mkResult pred ((1 : Rat) - (pred : Rat), (pred : Rat)))

/-- The `POST /predict/single` handler: pydantic validation of the body,
then the one-row table in `FEATURE_NAMES` order, then inference. -/
def predict_single (model : Model) (body : Instance) :
    Except ApiError PredictionResult :=
  match parsePatient body with
  | .error e => .error (.validationError e)
  | .ok features => singleInfer model (singleTable features)

/-- Python `str.split(sep)` on a character list: always yields at least
one chunk, and one extra chunk per separator occurrence. -/
def pySplit (sep : Char) : List Char → List (List Char)
  | [] => [[]]
  | c :: rest =>
    if c = sep then [] :: pySplit sep rest
    else
      match pySplit sep rest with
      | [] => [[c]]
      | h :: t => (c :: h) :: t

/-- `get_database_info` from `db_utils.py`, over the `DATABASE_URL`
environment value (`none` = unset).  The result is the returned dict;
an overall `none` would model an uncaught exception (the only candidate
is the `[1]` index after `split("@")`). -/
def get_database_info (database_url : Option (List Char)) :
    Option (List (String × String)) :=
  match database_url with
  | none =>
    some [("type", "Not Configured"), ("location", "Unknown"),
          ("error", "DATABASE_URL not found in environment")]
  | some url =>
    if '@' ∈ url then
      match (pySplit '@' url)[1]? with
      | none => none
      | some t =>
        some [("type", "PostgreSQL"), ("location", "Render Cloud"),
              ("url", String.mk t)]
    else
      some [("type", "PostgreSQL"), ("location", "Render Cloud"),
            ("url", "configured")]

/-- The `GET /health` handler: reads the database info and assembles the
status dict with `.get` defaults; `none` would model the handler itself
raising (it only can if the probe does). -/
def health (model_loaded : Bool) (database_url : Option (List Char)) :
    Option (List (String × String)) :=
  match get_database_info database_url with
  | none => none
  | some db =>
    some [("status", "healthy"),
          ("model_loaded", if model_loaded then "True" else "False"),
          ("model_path", MODEL_PATH),
          ("database_type", (db.lookup "type").getD "Unknown"),
          ("database_location", (db.lookup "location").getD "Unknown")]

/-- The projected DataFrame of the batch path: exactly the schema columns
in schema order, each cell the per-dict lookup. -/
def normTable (instances : List Instance) : Table :=
  { cols := FEATURE_NAMES
    rows := instances.map fun inst => FEATURE_NAMES.map fun c => inst.lookup c }

/-- A declared field is satisfied by the request body: present and within
its inclusive bounds. -/
def goodField (body : Instance) (fs : FieldSpec) : Prop :=
  ∃ v, body.lookup fs.name = some v ∧ fs.lo ≤ v ∧ v ≤ fs.hi

/-- A declared field is violated by the request body: absent, or out of
its inclusive bounds. -/
def badField (body : Instance) (fs : FieldSpec) : Prop :=
  body.lookup fs.name = none ∨
    ∃ v, body.lookup fs.name = some v ∧ ¬(fs.lo ≤ v ∧ v ≤ fs.hi)

/-- The synthesized hard probability pair `[1 - p, p]` for a label. -/
def fallbackPair (p : Int) : Rat × Rat := ((1 : Rat) - (p : Rat), (p : Rat))

/-- The example record of the API docs (`oldpeak` rounded to an integer so
that concrete runs avoid irreducible rational literals). -/
def demoRecord : Instance :=
  [("age", 63), ("sex", 1), ("cp", 3), ("trestbps", 145), ("chol", 233),
   ("fbs", 1), ("restecg", 0), ("thalach", 150), ("exang", 0),
   ("oldpeak", 2), ("slope", 0), ("ca", 0), ("thal", 1)]

/-- A record with every schema field present but `age` above its declared
maximum of 120. -/
def demoRecord150 : Instance :=
  [("age", 150), ("sex", 1), ("cp", 3), ("trestbps", 145), ("chol", 233),
   ("fbs", 1), ("restecg", 0), ("thalach", 150), ("exang", 0),
   ("oldpeak", 2), ("slope", 0), ("ca", 0), ("thal", 1)]

/-- A record with an extra unrecognized key and an out-of-range `age`,
exercising the loose batch path. -/
def demoRecordExtra : Instance :=
  ("patient_id", 12345) :: demoRecord150

/-- A fully valid record carrying an extra unrecognized key. -/
def demoRecordExtraOk : Instance :=
  ("patient_id", 7) :: demoRecord

/-- A record missing the `thal` column. -/
def demoRecordNoThal : Instance :=
  [("age", 63), ("sex", 1), ("cp", 3), ("trestbps", 145), ("chol", 233),
   ("fbs", 1), ("restecg", 0), ("thalach", 150), ("exang", 0),
   ("oldpeak", 2), ("slope", 0), ("ca", 0)]

/-- A deterministic scoring capability without `predict_proba` that labels
every row `1`. -/
def demoModel : Model :=
  { classify := fun t => .ok (t.rows.map fun _ => 1)
    classifyProba := none }

/-- A contract-violating scoring capability that always returns exactly
one label, regardless of how many rows it is given. -/
def truncModel : Model :=
  { classify := fun _ => .ok [0], classifyProba := none }

/-- A scoring capability exposing `predict_proba`, labelling every row `0`
with probability pair `(3/4, 1/4)`. -/
def probaModel : Model :=
  { classify := fun t => .ok (t.rows.map fun _ => 0)
    classifyProba := some fun t => .ok (t.rows.map fun _ => ((3 : Rat)/4, (1 : Rat)/4)) }

instance (body : Instance) (fs : FieldSpec) : Decidable (goodField body fs) :=
  match h : body.lookup fs.name with
  | none =>
    .isFalse (by rintro ⟨v, hv, _⟩; rw [h] at hv; cases hv)
  | some v =>
    decidable_of_iff (fs.lo ≤ v ∧ v ≤ fs.hi)
      ⟨fun hb => ⟨v, h, hb⟩,
       fun hg => by
        obtain ⟨v', hv', hb⟩ := hg
        rw [h] at hv'
        injection hv' with hv''
        rw [hv'']
        exact hb⟩

instance (body : Instance) (fs : FieldSpec) : Decidable (badField body fs) :=
  match h : body.lookup fs.name with
  | none => .isTrue (Or.inl h)
  | some v =>
    decidable_of_iff (¬(fs.lo ≤ v ∧ v ≤ fs.hi))
      ⟨fun hb => Or.inr ⟨v, h, hb⟩,
       fun hg => by
        rcases hg with h' | ⟨v', hv', hb⟩
        · rw [h] at h'; cases h'
        · rw [h] at hv'
          injection hv' with hv''
          rw [hv'']
          exact hb⟩

/-- Decidable equality of `Except` results, used to evaluate the pipeline
on concrete inputs. -/
instance {ε α : Type} [DecidableEq ε] [DecidableEq α] : DecidableEq (Except ε α) := fun a b =>
  match a, b with
  | .error x, .error y =>
    decidable_of_iff (x = y) ⟨fun h => by rw [h], fun h => by injection h⟩
  | .error _, .ok _ => .isFalse fun h => Except.noConfusion h
  | .ok _, .error _ => .isFalse fun h => Except.noConfusion h
  | .ok x, .ok y =>
    decidable_of_iff (x = y) ⟨fun h => by rw [h], fun h => by injection h⟩

/-- A successful association-list lookup exhibits a member pair. -/
theorem lookup_mem {β : Type} {l : List (String × β)} {c : String} {v : β}
    (h : l.lookup c = some v) : (c, v) ∈ l := by
  induction l with
  | nil => simp [List.lookup] at h
  | cons kv t ih =>
    rcases kv with ⟨k, w⟩
    rw [List.lookup_cons] at h
    by_cases hck : c = k
    · subst hck
      simp at h
      simp [h]
    · have hbeq : (c == k) = false := by simp [hck]
      rw [hbeq] at h
      exact List.mem_cons_of_mem _ (ih h)

/-- Looking a column up in a row zipped with its own column list returns
the row function applied to the column. -/
theorem lookup_zip_map (f : String → Cell) :
    ∀ (cols : List String) (c : String), c ∈ cols →
      (cols.zip (cols.map f)).lookup c = some (f c) := by
  intro cols
  induction cols with
  | nil => intro c hc; cases hc
  | cons k t ih =>
    intro c hc
    simp only [List.map_cons, List.zip_cons_cons]
    rw [List.lookup_cons]
    by_cases hck : c = k
    · subst hck; simp
    · have hbeq : (c == k) = false := by simp [hck]
      rw [hbeq]
      exact ih c (by rcases List.mem_cons.mp hc with h | h; exact absurd h hck; exact h)

/-- Membership after folding one dict's keys into an accumulator. -/
theorem mem_foldl_addKeys :
    ∀ (inst : Instance) (acc : List String) (c : String),
      c ∈ inst.foldl (fun a kv => if kv.1 ∈ a then a else a ++ [kv.1]) acc ↔
        c ∈ acc ∨ ∃ v, (c, v) ∈ inst := by
  intro inst
  induction inst with
  | nil => intro acc c; simp
  | cons kv t ih =>
    intro acc c
    simp only [List.foldl_cons]
    by_cases hmem : kv.1 ∈ acc
    · rw [if_pos hmem, ih]
      constructor
      · rintro (h | ⟨v, hv⟩)
        · exact Or.inl h
        · exact Or.inr ⟨v, List.mem_cons_of_mem _ hv⟩
      · rintro (h | ⟨v, hv⟩)
        · exact Or.inl h
        · rcases List.mem_cons.mp hv with h' | h'
          · refine Or.inl ?_
            have : c = kv.1 := by rw [Prod.ext_iff] at h'; exact h'.1
            rw [this]; exact hmem
          · exact Or.inr ⟨v, h'⟩
    · rw [if_neg hmem, ih]
      constructor
      · rintro (h | ⟨v, hv⟩)
        · rcases List.mem_append.mp h with h' | h'
          · exact Or.inl h'
          · refine Or.inr ⟨kv.2, ?_⟩
            have : c = kv.1 := by simpa using h'
            rw [this]
            exact List.mem_cons_self _ _
        · exact Or.inr ⟨v, List.mem_cons_of_mem _ hv⟩
      · rintro (h | ⟨v, hv⟩)
        · exact Or.inl (List.mem_append.mpr (Or.inl h))
        · rcases List.mem_cons.mp hv with h' | h'
          · have hc : c = kv.1 := by rw [Prod.ext_iff] at h'; exact h'.1
            refine Or.inl (List.mem_append.mpr (Or.inr ?_))
            simp [hc]
          · exact Or.inr ⟨v, h'⟩

/-- A name is a column of `pd.DataFrame(instances)` iff it is a key of
some input dict. -/
theorem mem_unionKeys {instances : List Instance} {c : String} :
    c ∈ unionKeys instances ↔ ∃ inst ∈ instances, ∃ v, (c, v) ∈ inst := by
  unfold unionKeys
  suffices h : ∀ acc : List String,
      c ∈ instances.foldl
          (fun acc inst => inst.foldl (fun a kv => if kv.1 ∈ a then a else a ++ [kv.1]) acc)
          acc ↔
        c ∈ acc ∨ ∃ inst ∈ instances, ∃ v, (c, v) ∈ inst by
    rw [h []]; simp
  induction instances with
  | nil => intro acc; simp
  | cons inst t ih =>
    intro acc
    simp only [List.foldl_cons]
    rw [ih, mem_foldl_addKeys]
    constructor
    · rintro ((h | hv) | ⟨i, hi, hv⟩)
      · exact Or.inl h
      · exact Or.inr ⟨inst, List.mem_cons_self _ _, hv⟩
      · exact Or.inr ⟨i, List.mem_cons_of_mem _ hi, hv⟩
    · rintro (h | ⟨i, hi, hv⟩)
      · exact Or.inl (Or.inl h)
      · rcases List.mem_cons.mp hi with h' | h'
        · exact Or.inl (Or.inr (h' ▸ hv))
        · exact Or.inr ⟨i, h', hv⟩

/-- Projecting `pd.DataFrame(instances)` onto the schema columns yields
`normTable` whenever every schema column is present. -/
theorem project_mkTable {instances : List Instance}
    (h : ∀ c ∈ FEATURE_NAMES, c ∈ unionKeys instances) :
    (mkTable instances).project FEATURE_NAMES = normTable instances := by
  unfold Table.project normTable mkTable
  simp only [List.map_map]
  congr 1
  apply List.map_congr_left
  intro inst _
  apply List.map_congr_left
  intro c hc
  unfold Table.cellAt
  simp only [Function.comp]
  rw [lookup_zip_map (fun c => inst.lookup c) (unionKeys instances) c (h c hc)]
  rfl

/-- On a non-empty batch whose coerced table has every schema column, the
batch handler runs inference on exactly the projected table. -/
theorem predict_run (model : Model) {instances : List Instance}
    (h₁ : instances ≠ [])
    (h₂ : ∀ c ∈ FEATURE_NAMES, c ∈ unionKeys instances) :
    predict model pdDataFrame instances = runInference model (normTable instances) := by
  unfold predict pdDataFrame
  rw [if_neg (by simpa using h₁)]
  have hmiss : (FEATURE_NAMES.filter fun c => decide (¬ c ∈ (mkTable instances).cols)) = [] := by
    rw [List.filter_eq_nil_iff]
    intro c hc
    have hm : c ∈ (mkTable instances).cols := h₂ c hc
    simp [hm]
  simp only [hmiss, List.isEmpty_nil, if_true]
  rw [project_mkTable h₂]

/-- The result loop succeeds and zips labels with probability rows when
the probabilities are at least as numerous as the labels. -/
theorem buildResults_eq_zipWith :
    ∀ (preds : List Int) (probas : List (Rat × Rat)), preds.length ≤ probas.length →
      buildResults preds probas = some (List.zipWith mkResult preds probas) := by
  intro preds
  induction preds with
  | nil => intro probas _; simp [buildResults]
  | cons p ps ih =>
    intro probas hlen
    cases probas with
    | nil => simp at hlen
    | cons pr prs =>
      simp only [buildResults, List.zipWith_cons_cons]
      rw [ih prs (by simpa using hlen)]
      rfl

/-- Every element of a successfully built result list is a `mkResult`. -/
theorem buildResults_mem :
    ∀ {preds : List Int} {probas : List (Rat × Rat)} {rs : List PredictionResult},
      buildResults preds probas = some rs → ∀ r ∈ rs, ∃ p pr, r = mkResult p pr := by
  intro preds
  induction preds with
  | nil =>
    intro probas rs h r hr
    simp [buildResults] at h
    subst h
    cases hr
  | cons p ps ih =>
    intro probas rs h r hr
    cases probas with
    | nil => simp [buildResults] at h
    | cons pr prs =>
      simp only [buildResults, Option.map_eq_some'] at h
      obtain ⟨rs', hrs', hcons⟩ := h
      rw [← hcons] at hr
      rcases List.mem_cons.mp hr with h' | h'
      · exact ⟨p, pr, h'⟩
      · exact ih hrs' r h'

/-- Pointwise reading of a `zipWith`. -/
theorem zipWith_getElem? {α β γ : Type} (f : α → β → γ) :
    ∀ (as : List α) (bs : List β) (i : Nat) (a : α) (b : β),
      as[i]? = some a → bs[i]? = some b →
      (List.zipWith f as bs)[i]? = some (f a b) := by
  intro as
  induction as with
  | nil => intro bs i a b ha _; simp at ha
  | cons x xs ih =>
    intro bs i a b ha hb
    cases bs with
    | nil => simp at hb
    | cons y ys =>
      cases i with
      | zero =>
        simp only [List.getElem?_cons_zero, Option.some.injEq] at ha hb
        simp [List.zipWith_cons_cons, ha, hb]
      | succ n =>
        simp only [List.getElem?_cons_succ] at ha hb
        simp only [List.zipWith_cons_cons, List.getElem?_cons_succ]
        exact ih ys n a b ha hb

/-- A `mapM` over `Except` succeeds elementwise. -/
theorem mapM_ok_of_forall {ε α β : Type} (f : α → Except ε β) (g : α → β) :
    ∀ l : List α, (∀ x ∈ l, f x = .ok (g x)) → l.mapM f = .ok (l.map g) := by
  intro l
  induction l with
  | nil => intro _; rfl
  | cons x t ih =>
    intro h
    rw [List.mapM_cons, h x (List.mem_cons_self x t),
      ih fun y hy => h y (List.mem_cons_of_mem x hy)]
    rfl

/-- A successful `mapM` over `Except` is an elementwise success, in
order. -/
theorem mapM_ok_forall₂ {ε α β : Type} (f : α → Except ε β) :
    ∀ (l : List α) (r : List β), l.mapM f = .ok r →
      List.Forall₂ (fun x y => f x = .ok y) l r := by
  intro l
  induction l with
  | nil =>
    intro r h
    have : r = [] := by
      have h' : (Except.ok [] : Except ε (List β)) = .ok r := h
      injection h' with h''
      exact h''.symm
    rw [this]
    exact List.Forall₂.nil
  | cons x t ih =>
    intro r h
    rw [List.mapM_cons] at h
    cases hfx : f x with
    | error e => rw [hfx] at h; simp [Bind.bind, Except.bind] at h
    | ok y =>
      rw [hfx] at h
      cases hmt : t.mapM f with
      | error e =>
        rw [hmt] at h
        simp [Bind.bind, Except.bind, Pure.pure] at h
      | ok ys =>
        rw [hmt] at h
        simp only [Bind.bind, Except.bind, Pure.pure] at h
        injection h with h'
        rw [← h']
        exact List.Forall₂.cons hfx (ih ys hmt)

/-- A `mapM` over `Except` fails when any element fails, and the returned
error is the error of some element. -/
theorem mapM_error_of_mem {ε α β : Type} (f : α → Except ε β) :
    ∀ (l : List α) (x : α) (e : ε), x ∈ l → f x = .error e →
      ∃ e', l.mapM f = .error e' ∧ ∃ x' ∈ l, f x' = .error e' := by
  intro l
  induction l with
  | nil => intro x e h; cases h
  | cons a t ih =>
    intro x e hx hfx
    cases hfa : f a with
    | error e0 =>
      refine ⟨e0, ?_, a, List.mem_cons_self _ _, hfa⟩
      rw [List.mapM_cons, hfa]
      rfl
    | ok y =>
      have hxt : x ∈ t := by
        rcases List.mem_cons.mp hx with h' | h'
        · rw [h', hfa] at hfx; cases hfx
        · exact h'
      obtain ⟨e', ht, x', hx', hfx'⟩ := ih x e hxt hfx
      refine ⟨e', ?_, x', List.mem_cons_of_mem _ hx', hfx'⟩
      rw [List.mapM_cons, hfa, ht]
      rfl

/-- An elementwise relation whose right side is functionally determined
turns into a `map`. -/
theorem forall₂_eq_map {α β : Type} {P : α → β → Prop} {g : α → β}
    (hg : ∀ x y, P x y → y = g x) :
    ∀ {l : List α} {r : List β}, List.Forall₂ P l r → r = l.map g := by
  intro l r h
  induction h with
  | nil => rfl
  | cons h₁ _ ih => simp only [List.map_cons]; rw [hg _ _ h₁, ih]

/-- Elementwise success extracted for a member of the left list. -/
theorem forall₂_mem_left {α β : Type} {P : α → β → Prop} :
    ∀ {l : List α} {r : List β}, List.Forall₂ P l r → ∀ x ∈ l, ∃ y ∈ r, P x y := by
  intro l r h
  induction h with
  | nil => intro x hx; cases hx
  | cons h₁ h₂ ih =>
    intro x hx
    rcases List.mem_cons.mp hx with h' | h'
    · exact ⟨_, List.mem_cons_self _ _, h' ▸ h₁⟩
    · obtain ⟨y, hy, hP⟩ := ih x h'
      exact ⟨y, List.mem_cons_of_mem _ hy, hP⟩

/-- Success characterization of one pydantic field check. -/
theorem checkField_ok_iff {body : Instance} {fs : FieldSpec} {y : String × Rat} :
    checkField body fs = .ok y ↔
      ∃ v, body.lookup fs.name = some v ∧ fs.lo ≤ v ∧ v ≤ fs.hi ∧ y = (fs.name, v) := by
  cases h : body.lookup fs.name with
  | none => simp [checkField, h]
  | some v =>
    simp only [checkField, h]
    by_cases hb : fs.lo ≤ v ∧ v ≤ fs.hi
    · rw [if_pos hb]
      constructor
      · intro h'
        injection h' with h''
        exact ⟨v, rfl, hb.1, hb.2, h''.symm⟩
      · rintro ⟨v', hv', _, _, hy⟩
        injection hv' with hv''
        rw [hy, hv'']
    · rw [if_neg hb]
      constructor
      · intro h'; cases h'
      · rintro ⟨v', hv', h1, h2, _⟩
        injection hv' with hv''
        rw [← hv''] at h1 h2
        exact absurd ⟨h1, h2⟩ hb

/-- Failure characterization of one pydantic field check: the error names
the checked field. -/
theorem checkField_error_iff {body : Instance} {fs : FieldSpec} {e : ValidationError} :
    checkField body fs = .error e ↔
      (body.lookup fs.name = none ∧ e = .missing fs.name) ∨
      (∃ v, body.lookup fs.name = some v ∧ ¬(fs.lo ≤ v ∧ v ≤ fs.hi) ∧
        e = .outOfRange fs.name) := by
  cases h : body.lookup fs.name with
  | none =>
    simp only [checkField, h]
    constructor
    · intro h'; injection h' with h''; exact Or.inl ⟨by simp, h''.symm⟩
    · rintro (⟨_, he⟩ | ⟨v, hv, _⟩)
      · rw [he]
      · cases hv
  | some v =>
    simp only [checkField, h]
    by_cases hb : fs.lo ≤ v ∧ v ≤ fs.hi
    · rw [if_pos hb]
      constructor
      · intro h'; cases h'
      · rintro (⟨hn, _⟩ | ⟨v', hv', hb', _⟩)
        · cases hn
        · injection hv' with h''
          rw [← h''] at hb'
          exact absurd hb hb'
    · rw [if_neg hb]
      constructor
      · intro h'
        injection h' with h''
        exact Or.inr ⟨v, rfl, hb, h''.symm⟩
      · rintro (⟨hn, _⟩ | ⟨_, _, _, he⟩)
        · cases hn
        · rw [he]

/-- Pydantic parsing succeeds on a body satisfying every declared field,
returning exactly the declared fields in declaration order (extra keys
dropped). -/
theorem parsePatient_ok_of_good {body : Instance}
    (h : ∀ fs ∈ PatientFeaturesFields, goodField body fs) :
    parsePatient body =
      .ok (PatientFeaturesFields.map fun fs => (fs.name, (body.lookup fs.name).getD 0)) := by
  unfold parsePatient
  apply mapM_ok_of_forall
  intro fs hfs
  obtain ⟨v, hv, h1, h2⟩ := h fs hfs
  rw [checkField_ok_iff]
  exact ⟨v, hv, h1, h2, by rw [hv]; simp⟩

/-- A successful pydantic parse came from a body satisfying every field,
and is exactly the declared fields with their looked-up values. -/
theorem parsePatient_ok_inv {body feats : Instance} (h : parsePatient body = .ok feats) :
    feats = PatientFeaturesFields.map (fun fs => (fs.name, (body.lookup fs.name).getD 0)) ∧
      ∀ fs ∈ PatientFeaturesFields, goodField body fs := by
  have h2 := mapM_ok_forall₂ (checkField body) PatientFeaturesFields feats h
  constructor
  · refine forall₂_eq_map ?_ h2
    intro fs y hy
    rw [checkField_ok_iff] at hy
    obtain ⟨v, hv, _, _, hy⟩ := hy
    rw [hy, hv]
    simp
  · intro fs hfs
    obtain ⟨y, _, hP⟩ := forall₂_mem_left h2 fs hfs
    rw [checkField_ok_iff] at hP
    obtain ⟨v, hv, hl, hr, _⟩ := hP
    exact ⟨v, hv, hl, hr⟩

/-- Pydantic parsing fails whenever some declared field is violated, and
the reported error names a violated field. -/
theorem parsePatient_error_of_bad {body : Instance} {fs : FieldSpec}
    (hfs : fs ∈ PatientFeaturesFields) (hbad : badField body fs) :
    ∃ e, parsePatient body = .error e ∧
      ∃ fs' ∈ PatientFeaturesFields, badField body fs' ∧
        (e = .missing fs'.name ∨ e = .outOfRange fs'.name) := by
  have hex : ∃ e0, checkField body fs = .error e0 := by
    rcases hbad with h | ⟨v, hv, hb⟩
    · exact ⟨.missing fs.name, by simp [checkField, h]⟩
    · exact ⟨.outOfRange fs.name, by simp only [checkField, hv]; rw [if_neg hb]⟩
  obtain ⟨e0, he0⟩ := hex
  obtain ⟨e', hmap, x', hx', hfx'⟩ :=
    mapM_error_of_mem (checkField body) PatientFeaturesFields fs e0 hfs he0
  rw [checkField_error_iff] at hfx'
  refine ⟨e', hmap, x', hx', ?_, ?_⟩
  · rcases hfx' with ⟨hn, _⟩ | ⟨v, hv, hb, _⟩
    · exact Or.inl hn
    · exact Or.inr ⟨v, hv, hb⟩
  · rcases hfx' with ⟨_, he⟩ | ⟨_, _, _, he⟩
    · exact Or.inl he
    · exact Or.inr he

/-- The schema order equals the declared pydantic field order. -/
theorem featureNames_eq_map :
    FEATURE_NAMES = PatientFeaturesFields.map (fun fs => fs.name) := rfl

/-- Association lookup over declared fields paired with computed values. -/
theorem lookup_map_specs (g : FieldSpec → Rat) (c : String) :
    ∀ l : List FieldSpec,
      (l.map fun fs => (fs.name, g fs)).lookup c =
        (l.find? fun fs => fs.name == c).map g := by
  intro l
  induction l with
  | nil => rfl
  | cons fs t ih =>
    by_cases hc : c = fs.name
    · subst hc
      simp [List.lookup_cons, List.find?_cons]
    · have h1 : (c == fs.name) = false := beq_eq_false_iff_ne.mpr hc
      have h2 : (fs.name == c) = false := beq_eq_false_iff_ne.mpr fun h => hc h.symm
      simp [List.lookup_cons, List.find?_cons, h1, h2, ih]

/-- On a body with all fields good, the parsed record looks up to the same
values as the raw body on every schema column. -/
theorem feats_lookup_eq_body {body : Instance}
    (hgood : ∀ fs ∈ PatientFeaturesFields, goodField body fs) (c : String)
    (hc : c ∈ FEATURE_NAMES) :
    (PatientFeaturesFields.map fun fs => (fs.name, (body.lookup fs.name).getD 0)).lookup c
      = body.lookup c := by
  rw [lookup_map_specs]
  have hex : ∃ fs ∈ PatientFeaturesFields, (fs.name == c) = true := by
    rw [featureNames_eq_map] at hc
    obtain ⟨fs, hfs, hname⟩ := List.mem_map.mp hc
    exact ⟨fs, hfs, by simp [hname]⟩
  have hsome : (PatientFeaturesFields.find? fun fs => fs.name == c).isSome :=
    List.find?_isSome.mpr hex
  obtain ⟨fs0, hfind⟩ := Option.isSome_iff_exists.mp hsome
  have hp := List.find?_some hfind
  have hname : fs0.name = c := by simpa using hp
  have hmem : fs0 ∈ PatientFeaturesFields := List.mem_of_find?_eq_some hfind
  obtain ⟨v, hv, _, _⟩ := hgood fs0 hmem
  rw [hfind, Option.map_some', hv]
  rw [hname] at hv
  rw [hv]
  simp

/-- The parsed record's keys cover every schema column. -/
theorem feats_cover {body feats : Instance} (h : parsePatient body = .ok feats) :
    ∀ c ∈ FEATURE_NAMES, c ∈ unionKeys [feats] := by
  obtain ⟨hfeats, _⟩ := parsePatient_ok_inv h
  intro c hc
  rw [featureNames_eq_map] at hc
  obtain ⟨fs, hfs, hname⟩ := List.mem_map.mp hc
  apply mem_unionKeys.mpr
  refine ⟨feats, List.mem_cons_self _ _, (body.lookup fs.name).getD 0, ?_⟩
  rw [hfeats, ← hname]
  exact List.mem_map.mpr ⟨fs, hfs, rfl⟩

/-- A body satisfying every declared field has every schema column among
its keys. -/
theorem body_cover {body : Instance}
    (hgood : ∀ fs ∈ PatientFeaturesFields, goodField body fs) :
    ∀ c ∈ FEATURE_NAMES, c ∈ unionKeys [body] := by
  intro c hc
  rw [featureNames_eq_map] at hc
  obtain ⟨fs, hfs, hname⟩ := List.mem_map.mp hc
  obtain ⟨v, hv, _, _⟩ := hgood fs hfs
  exact mem_unionKeys.mpr ⟨body, List.mem_cons_self _ _, v, hname ▸ lookup_mem hv⟩

/-- The strict path's one-row table equals the batch path's normalized
table of the raw body: validation does not change the scored values. -/
theorem singleTable_eq {body feats : Instance} (h : parsePatient body = .ok feats) :
    singleTable feats = normTable [body] := by
  obtain ⟨hfeats, hgood⟩ := parsePatient_ok_inv h
  unfold singleTable
  rw [project_mkTable (feats_cover h)]
  unfold normTable
  congr 1
  simp only [List.map_cons, List.map_nil, List.cons.injEq, and_true]
  apply List.map_congr_left
  intro c hc
  rw [hfeats]
  exact feats_lookup_eq_body hgood c hc

/-- On a fully valid body the strict endpoint runs inference on the
normalized one-row table, for every scoring capability. -/
theorem predict_single_of_good {body : Instance}
    (hgood : ∀ fs ∈ PatientFeaturesFields, goodField body fs) (model : Model) :
    predict_single model body = singleInfer model (normTable [body]) := by
  have hp := parsePatient_ok_of_good hgood
  simp only [predict_single, hp]
  rw [singleTable_eq hp]

/-- A successful inference run produces only `mkResult` rows. -/
theorem runInference_ok_mem {model : Model} {X : Table} {resp : PredictResponse}
    (h : runInference model X = .ok resp) :
    ∀ r ∈ resp.predictions, ∃ p pr, r = mkResult p pr := by
  unfold runInference at h
  split at h
  · cases h
  · split at h
    · cases h
    · split at h
      · cases h
      · injection h with h'
        subst h'
        intro r hr
        exact buildResults_mem (by assumption) r hr

/-- A successful batch response produces only `mkResult` rows. -/
theorem predict_ok_mem {model : Model} {toDF : List Instance → Option Table}
    {instances : List Instance} {resp : PredictResponse}
    (h : predict model toDF instances = .ok resp) :
    ∀ r ∈ resp.predictions, ∃ p pr, r = mkResult p pr := by
  unfold predict at h
  split at h
  · cases h
  · split at h
    · cases h
    · simp only [] at h
      split at h
      · exact runInference_ok_mem h
      · cases h

/-- A successful single-record response is an `mkResult` row. -/
theorem predict_single_ok_mk {model : Model} {body : Instance} {r : PredictionResult}
    (h : predict_single model body = .ok r) : ∃ p pr, r = mkResult p pr := by
  unfold predict_single at h
  split at h
  · cases h
  · unfold singleInfer at h
    split at h
    · cases h
    · split at h
      · cases h
      · split at h
        · split at h
          · cases h
          · split at h
            · cases h
            · injection h with h'
              exact ⟨_, _, h'.symm⟩
        · injection h with h'
          exact ⟨_, _, h'.symm⟩

/-- The diagnosis of a constructed row is decided by the integer label
alone. -/
theorem mkResult_diagnosis (p : Int) (pr : Rat × Rat) :
    ((mkResult p pr).diagnosis = "Heart Disease Detected" ↔ (mkResult p pr).prediction = 1) ∧
    ((mkResult p pr).prediction = 0 → (mkResult p pr).diagnosis = "No Heart Disease") := by
  by_cases hp : p = 1
  · subst hp; simp [mkResult]
  · simp [mkResult, hp]

/-- Python `str.split` never yields an empty chunk list. -/
theorem pySplit_ne_nil (sep : Char) : ∀ s : List Char, pySplit sep s ≠ [] := by
  intro s
  cases s with
  | nil => simp [pySplit]
  | cons c rest =>
    unfold pySplit
    split
    · simp
    · split <;> simp

/-- Python `str.split` yields at least two chunks when the separator
occurs. -/
theorem pySplit_length_of_mem (sep : Char) :
    ∀ s : List Char, sep ∈ s → 2 ≤ (pySplit sep s).length := by
  intro s
  induction s with
  | nil => intro h; cases h
  | cons c rest ih =>
    intro h
    by_cases hc : c = sep
    · have h1 : pySplit sep rest ≠ [] := pySplit_ne_nil sep rest
      have h2 : 0 < (pySplit sep rest).length := List.length_pos.mpr h1
      unfold pySplit
      rw [if_pos hc]
      simp only [List.length_cons]
      omega
    · have hmem : sep ∈ rest := by
        rcases List.mem_cons.mp h with h' | h'
        · exact absurd h'.symm hc
        · exact h'
      have h2 := ih hmem
      unfold pySplit
      rw [if_neg hc]
      cases hr : pySplit sep rest with
      | nil => exact absurd hr (pySplit_ne_nil sep rest)
      | cons hd tl =>
        rw [hr] at h2
        simp only [List.length_cons] at h2 ⊢
        omega

/-- The database-info probe never raises, whatever the environment. -/
theorem get_database_info_ok :
    ∀ database_url : Option (List Char), ∃ r, get_database_info database_url = some r := by
  intro u
  cases u with
  | none => exact ⟨_, rfl⟩
  | some url =>
    by_cases h : '@' ∈ url
    · simp only [get_database_info]
      rw [if_pos h]
      cases h1 : (pySplit '@' url)[1]? with
      | none =>
        exfalso
        have hlen := pySplit_length_of_mem '@' url h
        rw [List.getElem?_eq_none_iff] at h1
        omega
      | some t => exact ⟨_, rfl⟩
    · simp only [get_database_info]
      rw [if_neg h]
      exact ⟨_, rfl⟩

/-- Zipping labels with the synthesized fallback rows is a map over the
labels. -/
theorem zipWith_fallback (preds : List Int) :
    List.zipWith mkResult preds
      (preds.map fun p : Int => ((1 : Rat) - (p : Rat), (p : Rat)))
      = preds.map fun p => mkResult p (fallbackPair p) := by
  induction preds with
  | nil => rfl
  | cons p ps ih => simp only [List.map_cons, List.zipWith_cons_cons, ih, fallbackPair]

/-- The health endpoint always answers, with a healthy status. -/
theorem health_ok (b : Bool) (u : Option (List Char)) :
    ∃ r, health b u = some r ∧ r.lookup "status" = some "healthy" := by
  obtain ⟨db, hdb⟩ := get_database_info_ok u
  refine ⟨[("status", "healthy"),
           ("model_loaded", if b then "True" else "False"),
           ("model_path", MODEL_PATH),
           ("database_type", (db.lookup "type").getD "Unknown"),
           ("database_location", (db.lookup "location").getD "Unknown")], ?_, rfl⟩
  simp only [health, hdb]

/-- C1: for every batch whose instances pass validation and for which the
scoring capability returns one label and one probability pair per row, the
response has exactly one `PredictionResult` per input row, the i-th result
is built from the i-th label and probability pair in order, and `count`
equals the length of the predictions sequence. -/
theorem claim_C1 (model : Model) (instances : List Instance)
    (preds : List Int) (probas : List (Rat × Rat))
    (h₁ : instances ≠ [])
    (h₂ : ∀ c ∈ FEATURE_NAMES, c ∈ unionKeys instances)
    (hc : model.classify (normTable instances) = .ok preds)
    (hp : probaPairs model (normTable instances) preds = .ok probas)
    (hlen : preds.length = instances.length)
    (hplen : probas.length = instances.length) :
    ∃ resp, predict model pdDataFrame instances = .ok resp ∧
      resp.predictions.length = instances.length ∧
      resp.count = resp.predictions.length ∧
      ∀ (i : Nat) (p : Int) (pr : Rat × Rat),
        preds[i]? = some p → probas[i]? = some pr →
        resp.predictions[i]? = some (mkResult p pr) := by
  rw [predict_run model h₁ h₂]
  simp only [runInference, hc, hp]
  rw [buildResults_eq_zipWith preds probas (by omega)]
  refine ⟨_, rfl, ?_, rfl, ?_⟩
  · simp only [List.length_zipWith]
    omega
  · intro i p pr hpi hpri
    exact zipWith_getElem? mkResult preds probas i p pr hpi hpri

/-- C1 witness: a concrete one-row batch. -/
theorem claim_C1_witness :
    ∃ resp, predict demoModel pdDataFrame [demoRecord] = .ok resp ∧
      resp.predictions.length = [demoRecord].length ∧
      resp.count = resp.predictions.length ∧
      resp.predictions[0]? = some (mkResult 1 (fallbackPair 1)) := by
  obtain ⟨resp, hr, hl, hcnt, hptw⟩ :=
    claim_C1 demoModel [demoRecord] [1] [fallbackPair 1]
      (List.cons_ne_nil _ _) (by decide) rfl rfl rfl rfl
  exact ⟨resp, hr, hl, hcnt, hptw 0 1 (fallbackPair 1) rfl rfl⟩

/-- C2 counterexample: a scoring capability that returns one label for a
two-row normalized table does not make the inference fail; `predict`
silently returns a truncated one-row response. -/
theorem claim_C2_counterexample :
    [demoRecord, demoRecord].length = 2 ∧
    predict truncModel pdDataFrame [demoRecord, demoRecord] =
      .ok { predictions := [mkResult 0 (fallbackPair 0)], count := 1 } :=
  ⟨rfl, rfl⟩

/-- C2 (amended): when the label-producing operation returns m labels for
an n-row table and the probability source yields one pair per label (as
the fallback always does), the inference succeeds with exactly m results
and `count = m`, even when m differs from n: the row count is never
checked and the result is silently truncated or padded, with no
`InferenceError`. -/
theorem claim_C2_amended (model : Model) (instances : List Instance) (preds : List Int)
    (hnp : model.classifyProba = none)
    (h₁ : instances ≠ [])
    (h₂ : ∀ c ∈ FEATURE_NAMES, c ∈ unionKeys instances)
    (hc : model.classify (normTable instances) = .ok preds) :
    ∃ resp, predict model pdDataFrame instances = .ok resp ∧
      resp.count = preds.length ∧ resp.predictions.length = preds.length := by
  rw [predict_run model h₁ h₂]
  simp only [runInference, hc, probaPairs, hnp]
  rw [buildResults_eq_zipWith preds _
    (by simp only [List.length_map]; exact Nat.le_refl _)]
  refine ⟨_, rfl, ?_, ?_⟩ <;>
    simp only [List.length_zipWith, List.length_map, Nat.min_self]

/-- C2 amended witness: one label for a two-row batch yields a successful
one-row response. -/
theorem claim_C2_amended_witness :
    ∃ resp, predict truncModel pdDataFrame [demoRecord, demoRecord] = .ok resp ∧
      resp.count = [(0 : Int)].length ∧
      resp.predictions.length = [(0 : Int)].length :=
  claim_C2_amended truncModel [demoRecord, demoRecord] [0] rfl
    (List.cons_ne_nil _ _) (by decide) rfl

/-- C3: when the scoring capability exposes no probability-producing
operation, every row's probabilities are exactly `(1 - label, label)`, on
both the batch and the single-record entry points. -/
theorem claim_C3 (model : Model) (hnp : model.classifyProba = none) :
    (∀ (instances : List Instance) (preds : List Int),
      instances ≠ [] → (∀ c ∈ FEATURE_NAMES, c ∈ unionKeys instances) →
      model.classify (normTable instances) = .ok preds →
      predict model pdDataFrame instances =
        .ok { predictions := preds.map fun p => mkResult p (fallbackPair p)
              count := preds.length }) ∧
    (∀ (body feats : Instance) (p : Int) (ps : List Int),
      parsePatient body = .ok feats →
      model.classify (normTable [body]) = .ok (p :: ps) →
      predict_single model body = .ok (mkResult p (fallbackPair p))) := by
  constructor
  · intro instances preds h₁ h₂ hc
    rw [predict_run model h₁ h₂]
    simp only [runInference, hc, probaPairs, hnp]
    rw [buildResults_eq_zipWith preds _
      (by simp only [List.length_map]; exact Nat.le_refl _)]
    rw [zipWith_fallback preds]
    simp only [List.length_map]
  · intro body feats p ps hparse hc
    simp only [predict_single, hparse]
    rw [singleTable_eq hparse]
    simp only [singleInfer, hc, List.getElem?_cons_zero, hnp]
    rfl

/-- C3 witness: the fallback pair on both endpoints at a concrete record
and model without probability support. -/
theorem claim_C3_witness :
    predict demoModel pdDataFrame [demoRecord] =
      .ok { predictions := [mkResult 1 (fallbackPair 1)], count := 1 } ∧
    predict_single demoModel demoRecord = .ok (mkResult 1 (fallbackPair 1)) := by
  have h := claim_C3 demoModel rfl
  constructor
  · exact h.1 [demoRecord] [1] (List.cons_ne_nil _ _) (by decide) rfl
  · exact h.2 demoRecord demoRecord 1 [] (by decide) rfl

/-- C4: on both endpoints every returned row has diagnosis
"Heart Disease Detected" iff its integer label is 1, has
"No Heart Disease" when the label is 0, and the diagnosis is a function of
the label alone, independent of the probabilities. -/
theorem claim_C4 :
    (∀ (model : Model) (toDF : List Instance → Option Table)
      (instances : List Instance) (resp : PredictResponse),
      predict model toDF instances = .ok resp →
      ∀ r ∈ resp.predictions,
        (r.diagnosis = "Heart Disease Detected" ↔ r.prediction = 1) ∧
        (r.prediction = 0 → r.diagnosis = "No Heart Disease")) ∧
    (∀ (model : Model) (body : Instance) (r : PredictionResult),
      predict_single model body = .ok r →
        (r.diagnosis = "Heart Disease Detected" ↔ r.prediction = 1) ∧
        (r.prediction = 0 → r.diagnosis = "No Heart Disease")) ∧
    (∀ (p : Int) (pr pr' : Rat × Rat),
      (mkResult p pr).diagnosis = (mkResult p pr').diagnosis) := by
  refine ⟨?_, ?_, ?_⟩
  · intro model toDF instances resp h r hr
    obtain ⟨p, pr, hrm⟩ := predict_ok_mem h r hr
    rw [hrm]
    exact mkResult_diagnosis p pr
  · intro model body r h
    obtain ⟨p, pr, hrm⟩ := predict_single_ok_mk h
    rw [hrm]
    exact mkResult_diagnosis p pr
  · intro p pr pr'
    rfl

/-- C4 witness at a concrete successful batch row. -/
theorem claim_C4_witness :
    ((mkResult 1 (fallbackPair 1)).diagnosis = "Heart Disease Detected" ↔
      (mkResult 1 (fallbackPair 1)).prediction = 1) ∧
    ((mkResult 1 (fallbackPair 1)).prediction = 0 →
      (mkResult 1 (fallbackPair 1)).diagnosis = "No Heart Disease") :=
  claim_C4.1 demoModel pdDataFrame [demoRecord]
    { predictions := [mkResult 1 (fallbackPair 1)], count := 1 } rfl
    (mkResult 1 (fallbackPair 1)) (List.mem_singleton.mpr rfl)

/-- C5: the loose batch entry checks, in order and each for every scoring
capability (so before any capability invocation): empty instances fail as
the empty-batch error; a failing DataFrame coercion fails as malformed
input; a coerced table missing schema columns fails naming the sorted
missing columns, computed on the unprojected table. -/
theorem claim_C5 (toDF : List Instance → Option Table) (instances : List Instance) :
    (instances = [] → ∀ model : Model,
      predict model toDF instances = .error .emptyBatch ∧
      (ApiError.emptyBatch).status = 400) ∧
    (instances ≠ [] → toDF instances = none → ∀ model : Model,
      predict model toDF instances = .error .malformedInput ∧
      (ApiError.malformedInput).status = 400) ∧
    (∀ X : Table, instances ≠ [] → toDF instances = some X →
      (FEATURE_NAMES.filter fun c => decide (¬ c ∈ X.cols)) ≠ [] →
      ∀ model : Model,
        predict model toDF instances =
          .error (.missingColumns
            (sortStrings (FEATURE_NAMES.filter fun c => decide (¬ c ∈ X.cols)))) ∧
        List.Sorted (fun a b : String => a ≤ b)
          (sortStrings (FEATURE_NAMES.filter fun c => decide (¬ c ∈ X.cols))) ∧
        List.Perm
          (sortStrings (FEATURE_NAMES.filter fun c => decide (¬ c ∈ X.cols)))
          (FEATURE_NAMES.filter fun c => decide (¬ c ∈ X.cols))) := by
  refine ⟨?_, ?_, ?_⟩
  · intro h model
    subst h
    exact ⟨rfl, rfl⟩
  · intro h₁ h₂ model
    refine ⟨?_, rfl⟩
    simp only [predict, h₂]
    rw [if_neg (by simpa using h₁)]
  · intro X h₁ h₂ hm model
    refine ⟨?_, List.sorted_insertionSort _ _, List.perm_insertionSort _ _⟩
    simp only [predict, h₂]
    rw [if_neg (by simpa using h₁)]
    rw [if_neg (by simpa using hm)]

/-- C5 witness: the three rejection shapes at concrete inputs, each ahead
of any scoring. -/
theorem claim_C5_witness :
    (predict demoModel pdDataFrame [] = .error .emptyBatch ∧
      (ApiError.emptyBatch).status = 400) ∧
    (predict demoModel (fun _ => none) [demoRecord] = .error .malformedInput ∧
      (ApiError.malformedInput).status = 400) ∧
    (predict demoModel pdDataFrame [demoRecordNoThal] =
      .error (.missingColumns
        (sortStrings (FEATURE_NAMES.filter fun c =>
          decide (¬ c ∈ (mkTable [demoRecordNoThal]).cols)))) ∧
      List.Sorted (fun a b : String => a ≤ b)
        (sortStrings (FEATURE_NAMES.filter fun c =>
          decide (¬ c ∈ (mkTable [demoRecordNoThal]).cols))) ∧
      List.Perm
        (sortStrings (FEATURE_NAMES.filter fun c =>
          decide (¬ c ∈ (mkTable [demoRecordNoThal]).cols)))
        (FEATURE_NAMES.filter fun c =>
          decide (¬ c ∈ (mkTable [demoRecordNoThal]).cols))) :=
  ⟨(claim_C5 pdDataFrame []).1 rfl demoModel,
   (claim_C5 (fun _ => none) [demoRecord]).2.1 (List.cons_ne_nil _ _) rfl demoModel,
   (claim_C5 pdDataFrame [demoRecordNoThal]).2.2 (mkTable [demoRecordNoThal])
     (List.cons_ne_nil _ _) rfl (by decide) demoModel⟩

/-- C6: a non-empty batch whose coerced table has every schema column is
scored on exactly the schema columns in schema order, whatever the values
(no range validation) and whatever extra columns were supplied (they are
discarded by the projection). -/
theorem claim_C6 (model : Model) (instances : List Instance)
    (h₁ : instances ≠ [])
    (h₂ : ∀ c ∈ FEATURE_NAMES, c ∈ unionKeys instances) :
    (normTable instances).cols = FEATURE_NAMES ∧
    (normTable instances).rows =
      instances.map (fun inst => FEATURE_NAMES.map fun c => inst.lookup c) ∧
    predict model pdDataFrame instances = runInference model (normTable instances) :=
  ⟨rfl, rfl, predict_run model h₁ h₂⟩

/-- C6 witness: a record with an extra `patient_id` key and an
out-of-range `age` passes the loose path and is scored normally. -/
theorem claim_C6_witness :
    ((normTable [demoRecordExtra]).cols = FEATURE_NAMES ∧
      (normTable [demoRecordExtra]).rows =
        [demoRecordExtra].map (fun inst => FEATURE_NAMES.map fun c => inst.lookup c) ∧
      predict demoModel pdDataFrame [demoRecordExtra] =
        runInference demoModel (normTable [demoRecordExtra])) ∧
    predict demoModel pdDataFrame [demoRecordExtra] =
      .ok { predictions := [mkResult 1 (fallbackPair 1)], count := 1 } :=
  ⟨claim_C6 demoModel [demoRecordExtra] (List.cons_ne_nil _ _) (by decide), rfl⟩

/-- C7: on the strict single-record entry, a body missing a declared field
or violating an inclusive bound is rejected with a validation error naming
a violated field, for every scoring capability (so before any capability
invocation), surfaced as a 422. -/
theorem claim_C7 (body : Instance) (fs : FieldSpec)
    (hfs : fs ∈ PatientFeaturesFields) (hbad : badField body fs) :
    ∃ e, parsePatient body = .error e ∧
      (∃ fs' ∈ PatientFeaturesFields, badField body fs' ∧
        (e = .missing fs'.name ∨ e = .outOfRange fs'.name)) ∧
      ∀ model : Model,
        predict_single model body = .error (.validationError e) ∧
        (ApiError.validationError e).status = 422 := by
  obtain ⟨e, hp, hoff⟩ := parsePatient_error_of_bad hfs hbad
  refine ⟨e, hp, hoff, fun model => ⟨?_, rfl⟩⟩
  simp only [predict_single, hp]

/-- C7 witness: `age = 150` (above the declared maximum 120) is rejected
before any scoring. -/
theorem claim_C7_witness :
    ∃ e, parsePatient demoRecord150 = .error e ∧
      (∃ fs' ∈ PatientFeaturesFields, badField demoRecord150 fs' ∧
        (e = .missing fs'.name ∨ e = .outOfRange fs'.name)) ∧
      predict_single demoModel demoRecord150 = .error (.validationError e) ∧
      (ApiError.validationError e).status = 422 := by
  obtain ⟨e, hp, hoff, hall⟩ :=
    claim_C7 demoRecord150 ⟨"age", 1, 120⟩ (by decide) (by decide)
  exact ⟨e, hp, hoff, hall demoModel⟩

/-- C8: for a record passing the strict bounds, the single-instance result
is exactly the unique element of the batch result on the one-element
instance list, label, probabilities and diagnosis included, for the same
scoring capability honouring the one-label/one-pair contract. -/
theorem claim_C8 (model : Model) (body feats : Instance) (p : Int) (pr : Rat × Rat)
    (hparse : parsePatient body = .ok feats)
    (hc : model.classify (normTable [body]) = .ok [p])
    (hp : probaPairs model (normTable [body]) [p] = .ok [pr]) :
    predict_single model body = .ok (mkResult p pr) ∧
    predict model pdDataFrame [body] =
      .ok { predictions := [mkResult p pr], count := 1 } := by
  have hgood := (parsePatient_ok_inv hparse).2
  constructor
  · simp only [predict_single, hparse]
    rw [singleTable_eq hparse]
    cases hcp : model.classifyProba with
    | none =>
      have hpp : probaPairs model (normTable [body]) [p] =
          .ok [((1 : Rat) - (p : Rat), (p : Rat))] := by
        simp [probaPairs, hcp]
      rw [hpp] at hp
      injection hp with hl
      injection hl with hh _
      simp only [singleInfer, hc, List.getElem?_cons_zero, hcp]
      rw [hh]
    | some f =>
      have hf : f (normTable [body]) = .ok [pr] := by
        simpa [probaPairs, hcp] using hp
      simp only [singleInfer, hc, List.getElem?_cons_zero, hcp, hf]
  · rw [predict_run model (List.cons_ne_nil _ _) (body_cover hgood)]
    simp only [runInference, hc, hp]
    rw [buildResults_eq_zipWith [p] [pr] (by simp)]
    rfl

/-- C8 witness at a concrete valid record and deterministic capability. -/
theorem claim_C8_witness :
    predict_single demoModel demoRecord = .ok (mkResult 1 (fallbackPair 1)) ∧
    predict demoModel pdDataFrame [demoRecord] =
      .ok { predictions := [mkResult 1 (fallbackPair 1)], count := 1 } :=
  claim_C8 demoModel demoRecord demoRecord 1 (fallbackPair 1) (by decide) rfl rfl

/-- C9: the health operation never fails: the database-info probe always
answers, and with no configured data source the response carries the
"Not Configured"/"Unknown" placeholders while the status stays healthy. -/
theorem claim_C9 (model_loaded : Bool) (database_url : Option (List Char)) :
    (∃ r, health model_loaded database_url = some r ∧
      r.lookup "status" = some "healthy") ∧
    (database_url = none →
      ∃ r, health model_loaded database_url = some r ∧
        r.lookup "database_type" = some "Not Configured" ∧
        r.lookup "database_location" = some "Unknown" ∧
        r.lookup "status" = some "healthy") := by
  constructor
  · exact health_ok model_loaded database_url
  · intro h
    subst h
    exact ⟨_, rfl, rfl, rfl, rfl⟩

/-- C9 witness: unset `DATABASE_URL` still yields a healthy response with
the placeholder fields. -/
theorem claim_C9_witness :
    ∃ r, health true none = some r ∧
      r.lookup "database_type" = some "Not Configured" ∧
      r.lookup "database_location" = some "Unknown" ∧
      r.lookup "status" = some "healthy" :=
  (claim_C9 true none).2 rfl

/-- C10: a strict-path body whose declared fields are all present and
in range is accepted whatever extra keys it carries: parsing returns
exactly the thirteen declared fields in declaration order, the scored
table has exactly the schema columns in schema order, and the outcome
depends only on the schema fields' values. -/
theorem claim_C10 (body : Instance)
    (hgood : ∀ fs ∈ PatientFeaturesFields, goodField body fs) :
    parsePatient body =
      .ok (PatientFeaturesFields.map fun fs => (fs.name, (body.lookup fs.name).getD 0)) ∧
    (normTable [body]).cols = FEATURE_NAMES ∧
    (∀ model : Model, predict_single model body = singleInfer model (normTable [body])) ∧
    (∀ (model : Model) (body' : Instance),
      (∀ c ∈ FEATURE_NAMES, body'.lookup c = body.lookup c) →
      predict_single model body' = predict_single model body) := by
  refine ⟨parsePatient_ok_of_good hgood, rfl, predict_single_of_good hgood, ?_⟩
  intro model body' hlk
  have hgood' : ∀ fs ∈ PatientFeaturesFields, goodField body' fs := by
    intro fs hfs
    obtain ⟨v, hv, hl, hr⟩ := hgood fs hfs
    refine ⟨v, ?_, hl, hr⟩
    rw [hlk fs.name (by rw [featureNames_eq_map]; exact List.mem_map.mpr ⟨fs, hfs, rfl⟩), hv]
  rw [predict_single_of_good hgood model, predict_single_of_good hgood' model]
  congr 1
  unfold normTable
  congr 1
  simp only [List.map_cons, List.map_nil, List.cons.injEq, and_true]
  exact List.map_congr_left fun c hc => hlk c hc

/-- C10 witness: an in-range body with an extra `patient_id` key is
accepted, parsed to exactly the thirteen schema fields, and scored the
same as the body without the extra key. -/
theorem claim_C10_witness :
    parsePatient demoRecordExtraOk =
      .ok (PatientFeaturesFields.map fun fs =>
        (fs.name, (demoRecordExtraOk.lookup fs.name).getD 0)) ∧
    (normTable [demoRecordExtraOk]).cols = FEATURE_NAMES ∧
    predict_single demoModel demoRecordExtraOk =
      singleInfer demoModel (normTable [demoRecordExtraOk]) ∧
    predict_single demoModel demoRecord = predict_single demoModel demoRecordExtraOk := by
  obtain ⟨h1, h2, h3, h4⟩ := claim_C10 demoRecordExtraOk (by decide)
  exact ⟨h1, h2, h3 demoModel, h4 demoModel demoRecord (by decide)⟩

end HeartDisease
